import Mathlib

/-
Verification of the legacy 4x4 matrix utility (`matrix_math.cpp`).

The class `Matrix4` holds a flat 16-element row-major `float` buffer `m`.
We embed the buffer as a function `Fin 16 → ℚ` (floats modelled as exact
rationals) and each member function as a pure function on that state.
Pointer-level behaviour (the `multiply` argument being a separate object,
or aliasing the receiver) is modelled with an explicit heap of buffers
addressed by natural-number pointers.
-/

namespace MatrixMath

/-- The 16-element row-major buffer `float* m` of a `Matrix4` object. -/
def Matrix4 : Type := Fin 16 → ℚ

/-- A single store `m[j] = v` into a buffer. -/
def writeAt (m : Matrix4) (j : Fin 16) (v : ℚ) : Matrix4 :=
  fun i => if i = j then v else m i

/-- `Matrix4::identity`: the loop zeroes all 16 elements, then
`m[0] = m[5] = m[10] = m[15] = 1.0f`. -/
def identity : Matrix4 :=
  writeAt (writeAt (writeAt (writeAt (fun _ => 0) 0 1) 5 1) 10 1) 15 1

/-- The constructor `Matrix4()`: allocates the buffer and calls `identity()`. -/
def construct : Matrix4 := identity

/-- The row-major linear index `r*4 + c`. -/
def idx (r c : Fin 4) : Fin 16 := ⟨r.val * 4 + c.val, by omega⟩

/-- The innermost loop of `Matrix4::multiply` for one output cell:
`temp[r*4+c] = 0.0f;` followed by
`for k: temp[r*4+c] += m[r*4+k] * other->m[k*4+c]`. -/
def cellLoop (m other : Matrix4) (r c : Fin 4) : ℚ :=
  List.foldl (fun acc k => acc + m (idx r k) * other (idx k c)) 0
    ([0, 1, 2, 3] : List (Fin 4))

/-- `Matrix4::multiply`: the double loop fills the fresh buffer `temp`
(entry `r*4 + c` via `cellLoop`), and the copy-back loop then overwrites
all 16 elements of `m` with `temp`.  The resulting receiver state is the
function sending linear index `i` (with `r = i / 4`, `c = i % 4`) to the
computed cell. -/
def multiply (m other : Matrix4) : Matrix4 :=
  fun i => cellLoop m other ⟨i.val / 4, by omega⟩ ⟨i.val % 4, by omega⟩

/-- `Matrix4::setTranslation`: `m[12] = x; m[13] = y; m[14] = z;`. -/
def setTranslation (m : Matrix4) (x y z : ℚ) : Matrix4 :=
  writeAt (writeAt (writeAt m 12 x) 13 y) 14 z

/-- `Matrix4::getDeterminant`: the 3x3 cofactor-expansion formula over the
upper-left block, copied index for index from the source. -/
def getDeterminant (m : Matrix4) : ℚ :=
  m 0 * (m 5 * m 10 - m 6 * m 9) -
    m 1 * (m 4 * m 10 - m 6 * m 8) +
    m 2 * (m 4 * m 9 - m 5 * m 8)

/-- A heap of matrix buffers addressed by pointers, for the claims about
the `multiply` argument object and about aliasing. -/
def Heap : Type := Nat → Matrix4

/-- Overwriting the buffer of the object at pointer `p`. -/
def heapWrite (h : Heap) (p : Nat) (m : Matrix4) : Heap :=
  fun q => if q = p then m else h q

/-- `self->multiply(other)` at the heap level: `temp` is a fresh buffer, so
the whole product is computed from the two buffers as they are before any
store into `self`; only then does the copy-back loop overwrite `self`'s
buffer.  `other`'s buffer is only ever read. -/
def multiplyAt (h : Heap) (self other : Nat) : Heap :=
  heapWrite h self (multiply (h self) (h other))

/-- The demonstration `main`: `matA` after construction and
`setTranslation(10.0f, 5.0f, 0.0f)`. -/
def matA0 : Matrix4 := setTranslation construct 10 5 0

/-- The demonstration `main`: `matB` after construction and
`setTranslation(2.0f, 3.0f, 1.0f)`. -/
def matB0 : Matrix4 := setTranslation construct 2 3 1

/-- The state of `matA` after `matA->multiply(matB)` in `main`. -/
def mainResultA : Matrix4 := multiply matA0 matB0

/-- The upper-left 3x3 submatrix (rows 0-2, columns 0-2) as a Mathlib
matrix, for comparison with the library determinant. -/
def upperLeft3 (m : Matrix4) : Matrix (Fin 3) (Fin 3) ℚ :=
  fun r c => m ⟨r.val * 4 + c.val, by omega⟩

/-- Spec-side determinant: Mathlib's determinant of the upper-left 3x3
submatrix. -/
def specDet (m : Matrix4) : ℚ := (upperLeft3 m).det

/-- The buffer viewed as a Mathlib 4x4 matrix, bridging `multiply` to the
library matrix product. -/
def toMat (m : Matrix4) : Matrix (Fin 4) (Fin 4) ℚ :=
  fun r c => m (idx r c)

lemma idx_div (r c : Fin 4) : ((idx r c).val / 4 : Nat) = r.val := by
  have hr := r.isLt
  have hc := c.isLt
  simp only [idx]
  omega

lemma idx_mod (r c : Fin 4) : ((idx r c).val % 4 : Nat) = c.val := by
  have hr := r.isLt
  have hc := c.isLt
  simp only [idx]
  omega

lemma idx_surj (i : Fin 16) :
    idx ⟨i.val / 4, by omega⟩ ⟨i.val % 4, by omega⟩ = i := by
  apply Fin.ext
  simp only [idx]
  omega

lemma cellLoop_eq_sum (m other : Matrix4) (r c : Fin 4) :
    cellLoop m other r c = ∑ k : Fin 4, m (idx r k) * other (idx k c) := by
  simp [cellLoop, Fin.sum_univ_four]

lemma multiply_idx (M N : Matrix4) (r c : Fin 4) :
    multiply M N (idx r c) = ∑ k : Fin 4, M (idx r k) * N (idx k c) := by
  have h : multiply M N (idx r c)
      = cellLoop M N ⟨(idx r c).val / 4, by omega⟩ ⟨(idx r c).val % 4, by omega⟩ := rfl
  rw [h]
  have hr : (⟨(idx r c).val / 4, by omega⟩ : Fin 4) = r := Fin.ext (idx_div r c)
  have hc : (⟨(idx r c).val % 4, by omega⟩ : Fin 4) = c := Fin.ext (idx_mod r c)
  rw [hr, hc, cellLoop_eq_sum]

lemma toMat_multiply (M N : Matrix4) :
    toMat (multiply M N) = toMat M * toMat N := by
  ext r c
  rw [Matrix.mul_apply]
  exact multiply_idx M N r c

lemma toMat_injective : Function.Injective toMat := by
  intro M N h
  funext i
  have h2 := congrFun (congrFun h ⟨i.val / 4, by omega⟩) ⟨i.val % 4, by omega⟩
  simpa [toMat, idx_surj] using h2

lemma toMat_identity : toMat identity = 1 := by
  ext r c
  fin_cases r <;> fin_cases c <;>
    simp [toMat, identity, writeAt, idx, Matrix.one_apply]

/-- C1: after `M.multiply(N)` the element of `M` at linear index `r*4 + c`
equals the sum over `k` in 0..3 of the old `M[r*4+k] * N[k*4+c]`, for every
`r` and `c` in 0..3; and every linear index 0..15 is of the form `r*4 + c`,
so these 16 cells are the entire new state of `M`. -/
theorem multiply_entry (M N : Matrix4) :
    (∀ r c : Fin 4,
      multiply M N (idx r c) = ∑ k : Fin 4, M (idx r k) * N (idx k c)) ∧
    ∀ i : Fin 16, ∃ r c : Fin 4, i = idx r c := by
  refine ⟨fun r c => multiply_idx M N r c, fun i => ?_⟩
  exact ⟨⟨i.val / 4, by omega⟩, ⟨i.val % 4, by omega⟩, (idx_surj i).symm⟩

/-- C2: `getDeterminant` returns the determinant of the upper-left 3x3
submatrix (standard cofactor expansion along the first row, as computed by
Mathlib's `Matrix.det`), and its value depends only on the entries at
linear indices 0,1,2,4,5,6,8,9,10 — in particular on no element of the 4th
row or 4th column.  The embedding of `getDeterminant` as a scalar-valued
function on the matrix state reflects that the call leaves the 16 elements
unchanged. -/
theorem getDeterminant_spec (M M' : Matrix4)
    (h : ∀ i : Fin 16,
      i.val = 0 ∨ i.val = 1 ∨ i.val = 2 ∨ i.val = 4 ∨ i.val = 5 ∨
        i.val = 6 ∨ i.val = 8 ∨ i.val = 9 ∨ i.val = 10 → M i = M' i) :
    getDeterminant M = specDet M ∧ getDeterminant M = getDeterminant M' := by
  constructor
  · simp [getDeterminant, specDet, upperLeft3, Matrix.det_fin_three]
    ring
  · have h0 := h 0 (by decide)
    have h1 := h 1 (by decide)
    have h2 := h 2 (by decide)
    have h4 := h 4 (by decide)
    have h5 := h 5 (by decide)
    have h6 := h 6 (by decide)
    have h8 := h 8 (by decide)
    have h9 := h 9 (by decide)
    have h10 := h 10 (by decide)
    simp [getDeterminant, h0, h1, h2, h4, h5, h6, h8, h9, h10]

/-- Witness for C2 at concrete matrices: `identity` and `identity` with its
translation entries changed agree on the nine upper-left indices, so their
determinants agree, and both equal the Mathlib determinant. -/
theorem getDeterminant_spec_witness :
    getDeterminant identity = specDet identity ∧
      getDeterminant identity = getDeterminant (setTranslation identity 7 8 9) :=
  getDeterminant_spec identity (setTranslation identity 7 8 9) (by decide)

/-- C3: `setTranslation(x, y, z)` stores `x`, `y`, `z` at linear indices
12, 13, 14 and leaves each of the other 13 elements at its previous
value. -/
theorem setTranslation_spec (M : Matrix4) (x y z : ℚ) :
    setTranslation M x y z 12 = x ∧ setTranslation M x y z 13 = y ∧
      setTranslation M x y z 14 = z ∧
      ∀ i : Fin 16, i ≠ 12 → i ≠ 13 → i ≠ 14 → setTranslation M x y z i = M i := by
  refine ⟨by simp [setTranslation, writeAt], by simp [setTranslation, writeAt],
    by simp [setTranslation, writeAt], ?_⟩
  intro i h12 h13 h14
  simp [setTranslation, writeAt, h12, h13, h14]

/-- Witness for C3 at a concrete call: index 12 reads back the stored `x`
and index 0 is unchanged. -/
theorem setTranslation_spec_witness :
    setTranslation identity 1 2 3 12 = 1 ∧
      setTranslation identity 1 2 3 0 = identity 0 :=
  ⟨(setTranslation_spec identity 1 2 3).1,
    (setTranslation_spec identity 1 2 3).2.2.2 0 (by decide) (by decide) (by decide)⟩

/-- C4: after `identity()` the elements at linear indices 0, 5, 10, 15 are
1 and all others are 0, and a freshly constructed `Matrix4` is in exactly
this state. -/
theorem identity_spec :
    construct = identity ∧
      ∀ i : Fin 16,
        identity i = if i = 0 ∨ i = 5 ∨ i = 10 ∨ i = 15 then 1 else 0 :=
  ⟨rfl, by decide⟩

/-- C5: the identity state is a left and right multiplicative identity for
`multiply`: `M.multiply(N)` with `M` the identity leaves `M` holding
exactly `N`'s values, and `N.multiply(M)` leaves `N`'s values unchanged. -/
theorem identity_mul (N : Matrix4) :
    multiply identity N = N ∧ multiply N identity = N := by
  constructor
  · apply toMat_injective
    rw [toMat_multiply, toMat_identity, one_mul]
  · apply toMat_injective
    rw [toMat_multiply, toMat_identity, mul_one]

/-- C6: `self->multiply(other)` never mutates the argument object: for any
heap and any two distinct pointers, the buffer of `other` after the call
equals its buffer before the call (the call writes only to `self`'s
buffer). -/
theorem multiply_other_unchanged (h : Heap) (self other : Nat)
    (hne : other ≠ self) :
    multiplyAt h self other other = h other := by
  simp [multiplyAt, heapWrite, hne]

/-- Witness for C6 on a concrete heap with two distinct objects. -/
theorem multiply_other_unchanged_witness :
    (1 : Nat) ≠ 0 ∧ multiplyAt (fun _ => identity) 0 1 1 = identity :=
  ⟨by decide, multiply_other_unchanged (fun _ => identity) 0 1 (by decide)⟩

/-- C7: `multiply` is associative: composing three matrices as `(A×B)×C`
or as `A×(B×C)` yields element-wise equal results.  In this embedding the
scalars are exact rationals, so the equality is exact — a fortiori within
any floating-point tolerance. -/
theorem multiply_assoc (A B C : Matrix4) :
    multiply (multiply A B) C = multiply A (multiply B C) := by
  apply toMat_injective
  rw [toMat_multiply, toMat_multiply, toMat_multiply, toMat_multiply,
    Matrix.mul_assoc]

/-- C8: the `main` scenario: after `A.setTranslation(10,5,0)`,
`B.setTranslation(2,3,1)` and `A.multiply(B)` starting from two identity
matrices, `A`'s entries at indices 12, 13, 14 are 12, 8, 1 and
`A.getDeterminant()` returns 1. -/
theorem main_scenario :
    mainResultA 12 = 12 ∧ mainResultA 13 = 8 ∧ mainResultA 14 = 1 ∧
      getDeterminant mainResultA = 1 := by
  have hmain : mainResultA = setTranslation identity 12 8 1 := by
    funext i
    fin_cases i <;>
      norm_num +decide [mainResultA, multiply, cellLoop, idx, matA0, matB0,
        construct, identity, setTranslation, writeAt]
  rw [hmain]
  refine ⟨rfl, rfl, rfl, ?_⟩
  norm_num +decide [getDeterminant, setTranslation, writeAt, identity]

/-- C9: if two of the three rows of the upper-left 3x3 block coincide
(rows 0 and 1, rows 0 and 2, or rows 1 and 2), `getDeterminant` returns
exactly 0 — a fortiori within any floating-point tolerance. -/
theorem det_repeated_row (M : Matrix4)
    (h : (M 4 = M 0 ∧ M 5 = M 1 ∧ M 6 = M 2) ∨
         (M 8 = M 0 ∧ M 9 = M 1 ∧ M 10 = M 2) ∨
         (M 8 = M 4 ∧ M 9 = M 5 ∧ M 10 = M 6)) :
    getDeterminant M = 0 := by
  rcases h with ⟨h1, h2, h3⟩ | ⟨h1, h2, h3⟩ | ⟨h1, h2, h3⟩ <;>
    (simp [getDeterminant, h1, h2, h3]; ring)

/-- Witness for C9: the all-ones matrix has all three rows of the 3x3
block equal, and its determinant is 0. -/
theorem det_repeated_row_witness :
    getDeterminant (fun _ => 1) = 0 :=
  det_repeated_row (fun _ => 1) (Or.inl ⟨rfl, rfl, rfl⟩)

/-- C10: `multiply` is aliasing-safe: the self-call `A->multiply(A)`
leaves `A` holding exactly the product of the old `A` with itself (entry
`r*4 + c` is the sum over `k` of old `A[r*4+k] * A[k*4+c]`), because the
product is accumulated into the fresh `temp` buffer and copied back only
afterwards. -/
theorem multiply_self_alias (h : Heap) (p : Nat) :
    multiplyAt h p p p = multiply (h p) (h p) ∧
      ∀ r c : Fin 4,
        multiplyAt h p p p (idx r c) = ∑ k : Fin 4, h p (idx r k) * h p (idx k c) := by
  have hb : multiplyAt h p p p = multiply (h p) (h p) := by
    simp [multiplyAt, heapWrite]
  exact ⟨hb, fun r c => by rw [hb]; exact multiply_idx (h p) (h p) r c⟩

end MatrixMath
